import Mathlib

/-!
Verification of the manifest-driven MSVC package pipeline
(`src/portable_msvc.py`) against its natural-language specification.

The Python source is shallowly embedded: byte strings become `List Nat`,
Python `str` becomes `String`, fallible code (exceptions, `sys.exit`)
becomes `Option`/explicit outcome types, and the global download state is
passed explicitly.  Python string primitives (`lower`, `split`, `join`,
`startswith`, `endswith`, slicing with negative indices, `<` on strings)
are modelled by executable helpers defined below on the character/byte
lists, matching CPython semantics on the ASCII data this program handles.
-/

namespace PortableMsvc

/-- Python `str.lower()` (ASCII range; the identifiers and hex digests the
program lowercases are ASCII). -/
def pyLower (s : String) : String :=
  String.mk (s.data.map Char.toLower)

/-- Python `s.startswith(pre)`. -/
def pyStartsWith (s pre : String) : Bool :=
  pre.data.isPrefixOf s.data

/-- Python `s.endswith(suf)`. -/
def pyEndsWith (s suf : String) : Bool :=
  suf.data.isSuffixOf s.data

/-- Helper for `pySplit`: split a character list at a separator character. -/
def splitChAux (sep : Char) : List Char → List Char → List (List Char)
  | [], acc => [acc.reverse]
  | c :: rest, acc =>
    if c = sep then acc.reverse :: splitChAux sep rest []
    else splitChAux sep rest (c :: acc)

/-- Python `s.split(sep)` for a one-character separator (the program only
splits on `"."`). -/
def pySplit (s : String) (sep : Char) : List String :=
  (splitChAux sep s.data []).map String.mk

/-- Python `".".join(parts)`. -/
def joinDot : List String → String
  | [] => ""
  | [s] => s
  | s :: t :: rest => s ++ "." ++ joinDot (t :: rest)

/-- Python `s[0]` where the program only evaluates it on nonempty strings;
the default on the unreachable empty case is arbitrary. -/
def pyFront (s : String) : Char :=
  s.data.headD 'A'

/-- Python `<` on strings: lexicographic comparison by code point. -/
def chLt : List Char → List Char → Bool
  | [], [] => false
  | [], _ :: _ => true
  | _ :: _, [] => false
  | a :: as, b :: bs =>
    if a.toNat < b.toNat then true
    else if b.toNat < a.toNat then false
    else chLt as bs

/-- Python `a < b` on strings. -/
def pyStrLt (a b : String) : Bool :=
  chLt a.data b.data

/-- Python `a <= b` on strings (total order, so `a <= b` iff `not (b < a)`). -/
def pyStrLe (a b : String) : Bool :=
  !(pyStrLt b a)

/-- Insert into a list sorted by `pyStrLe` (auxiliary for `pySorted`). -/
def insertSorted (s : String) : List String → List String
  | [] => [s]
  | t :: rest => if pyStrLe s t then s :: t :: rest else t :: insertSorted s rest

/-- Python `sorted(l)` for a list of strings.  Since the string order is
total and equal strings are identical, the sorted permutation is unique,
so insertion sort models `sorted` exactly. -/
def pySorted : List String → List String
  | [] => []
  | s :: rest => insertSorted s (pySorted rest)

/-- Python `max(l)` for a list of strings (`ValueError` on `[]` becomes
`none`). -/
def pyMax : List String → Option String
  | [] => none
  | s :: rest =>
    match pyMax rest with
    | none => some s
    | some m => some (if pyStrLe s m then m else s)

/-- Python `a or b` where `a` is an optional string (`None` and `""` are
falsy). -/
def pyOrStr (o : Option String) (d : Option String) : Option String :=
  match o with
  | some s => if s.data.isEmpty then d else some s
  | none => d

/-! ## detect_host (src/portable_msvc.py lines 87-96) -/

/-- `detect_host()`: the argument is the value of `platform.machine()`;
the function lowercases it and maps it to one of the three supported
host architectures, defaulting to `"x64"`. -/
def detect_host (machineRaw : String) : String :=
  let machine := pyLower machineRaw
  if machine = "amd64" then "x64"
  else if machine = "arm64" then "arm64"
  else if machine = "x86" then "x86"
  else "x64"

/-! ## DownloadManager.download_with_progress (src/portable_msvc.py lines 121-161)

The fetcher is modelled relative to an abstract hash function
`sha : List Nat → String` standing for `hashlib.sha256(data).hexdigest()`
(external library code; its relevant property — that `hexdigest()` emits
lowercase hex — is a hypothesis where needed).  The state touched by the
function is passed explicitly: `cached` is the contents of
`DOWNLOADS_DIR / filename` when that file exists, `url_data` is the byte
stream the URL serves, and `total_bytes` is the manager's cumulative
download counter. -/

/-- Outcome of one `download_with_progress` call: either a normal return
(carrying the returned bytes, the final contents of the cache file, the
new value of the cumulative byte counter, and whether the network was
used), or the `sys.exit("Hash mismatch ...")` fatal exit (at which point
the cache file holds the downloaded bytes). -/
inductive FetchOutcome where
  | ok (returnedData : List Nat) (cacheFile : List Nat) (totalBytes : Nat) (networkUsed : Bool)
  | exitHashMismatch (cacheFile : List Nat) (totalBytes : Nat)
deriving DecidableEq

/-- The network branch of `download_with_progress` (lines 133-161): the
file is opened for writing and every chunk is written both to it and to
the in-memory buffer, so at the end the cache file and the accumulator
both hold `url_data`; then the digest is compared with
`expected_hash.lower()`, exiting on mismatch and otherwise adding the
byte count to the manager's total. -/
def downloadNet (sha : List Nat → String) (url_data : List Nat)
    (expected_hash : String) (total_bytes : Nat) : FetchOutcome :=
  let data := url_data
  let actual := sha data
  if pyLower expected_hash ≠ actual then
    .exitHashMismatch data total_bytes
  else
    .ok data data (total_bytes + data.length) true

/-- `download_with_progress(url, expected_hash, filename)` (lines 121-161):
if the cache file exists and its digest equals `expected_hash.lower()`,
return its contents untouched; otherwise run the network download. -/
def download_with_progress (sha : List Nat → String) (url_data : List Nat)
    (expected_hash : String) (cached : Option (List Nat))
    (total_bytes : Nat) : FetchOutcome :=
  match cached with
  | some data =>
    if sha data = pyLower expected_hash then
      .ok data data total_bytes false
    else
      downloadNet sha url_data expected_hash total_bytes
  | none => downloadNet sha url_data expected_hash total_bytes

/-! ## MSIParser.extract_cab_files (src/portable_msvc.py lines 164-178) -/

/-- Python slice `l[a:b]` with full CPython index semantics: a negative
bound counts from the end of the list and both bounds are clamped to the
list. -/
def pySlice (l : List Nat) (a b : Int) : List Nat :=
  let n : Int := l.length
  let s : Int := if a < 0 then max (n + a) 0 else min a n
  let e : Int := if b < 0 then max (n + b) 0 else min b n
  (l.drop s.toNat).take (e.toNat - s.toNat)

/-- Does `pat` occur in `data` starting at byte offset `i`? -/
def matchesAt (data pat : List Nat) (i : Nat) : Bool :=
  (data.drop i).take pat.length == pat

/-- Python `bytes.find(pat, start)`: the least offset `i ≥ start` at which
`pat` occurs, `none` for Python's `-1`. -/
def bytesFind (data pat : List Nat) (start : Nat) : Option Nat :=
  ((List.range data.length).filter (fun i => start ≤ i && matchesAt data pat i)).head?

/-- The bytes of the marker `b".cab"`. -/
def cabMarker : List Nat := [46, 99, 97, 98]

/-- The `while True` loop of `extract_cab_files`: repeatedly
`index = msi_data.find(b".cab", index + 4)`, appending
`msi_data[index - 32 : index + 4]` for each hit.  `fuel` bounds the
iteration count (each found index is at least 4 larger than the previous
one, so `msi_data.length` iterations always suffice). -/
def extractLoop (data : List Nat) : Nat → Nat → List (List Nat)
  | 0, _ => []
  | fuel + 1, index =>
    match bytesFind data cabMarker (index + 4) with
    | none => []
    | some i => pySlice data ((i : Int) - 32) ((i : Int) + 4) :: extractLoop data fuel i

/-- `extract_cab_files(msi_data)` before the `.decode("ascii")` step:
the list of raw 36-byte (or clipped) windows found by the scan, in scan
order.  The loop variable starts at `0`, so the first search begins at
offset `4`. -/
def extract_cab_files_raw (data : List Nat) : List (List Nat) :=
  extractLoop data data.length 0

/-- Python `bytes.decode("ascii")`: fails (raises) unless every byte is
below 128. -/
def decodeAscii (l : List Nat) : Option String :=
  if l.all (· < 128) then some (String.mk (l.map Char.ofNat)) else none

/-- `extract_cab_files(msi_data)` including decoding; `none` models the
`UnicodeDecodeError` the Python code would raise on a non-ASCII window. -/
def extract_cab_files (data : List Nat) : Option (List String) :=
  (extract_cab_files_raw data).mapM decodeAscii

/-- The sequence of byte offsets at which the scan of
`extract_cab_files` finds the marker (same loop as `extractLoop`,
recording offsets instead of windows). -/
def scanOffsetsLoop (data : List Nat) : Nat → Nat → List Nat
  | 0, _ => []
  | fuel + 1, index =>
    match bytesFind data cabMarker (index + 4) with
    | none => []
    | some i => i :: scanOffsetsLoop data fuel i

/-- All marker offsets the `extract_cab_files` scan visits. -/
def scanOffsets (data : List Nat) : List Nat :=
  scanOffsetsLoop data data.length 0

/-! ## Manifest data model (VS manifest `packages` entries) -/

/-- One entry of a package's `payloads` array. -/
structure Payload where
  fileName : String
  url : String
  sha256 : String
deriving DecidableEq

/-- One package object of the VS manifest, with the fields
`parse_available_versions` / `download_msvc` / `download_sdk` read:
`package.get("language")`, `package["payloads"]`,
`package["dependencies"]` (the dependency list is the list of dependency
identifiers; the manifest stores it as a JSON object whose keys are the
identifiers). -/
structure Package where
  id : String
  language : Option String
  payloads : List Payload
  dependencies : List String
deriving DecidableEq

/-- The package index built by `parse_available_versions` lines 252-255:
lower-cased identifier mapped to the list of package records with that
identifier, in manifest order. -/
abbrev Index := List (String × List Package)

/-- Python `key in dict`. -/
def idxContains (idx : Index) (k : String) : Bool :=
  idx.any (fun kv => kv.1 == k)

/-- Python `dict[key]` (`none` models the `KeyError` crash). -/
def idxLookup (idx : Index) (k : String) : Option (List Package) :=
  (idx.find? (fun kv => kv.1 == k)).map (fun kv => kv.2)

/-- Python `packages.setdefault(package_id, []).append(package)` on an
insertion-ordered dict. -/
def setdefaultAppend (d : Index) (k : String) (v : Package) : Index :=
  if d.any (fun kv => kv.1 == k) then
    d.map (fun kv => if kv.1 == k then (kv.1, kv.2 ++ [v]) else kv)
  else
    d ++ [(k, [v])]

/-- Lines 252-255: group every manifest package by its lower-cased
identifier, preserving encounter order. -/
def build_packages (manifest_packages : List Package) : Index :=
  manifest_packages.foldl (fun d p => setdefaultAppend d (pyLower p.id) p) []

/-- `dict[k] = v` on an insertion-ordered dict (overwrite in place, else
append). -/
def dictInsert (d : List (String × String)) (k v : String) : List (String × String) :=
  if d.any (fun kv => kv.1 == k) then
    d.map (fun kv => if kv.1 == k then (kv.1, v) else kv)
  else
    d ++ [(k, v)]

/-! ## VSInstaller.parse_available_versions (src/portable_msvc.py lines 250-279) -/

/-- The version key the MSVC branch computes:
`".".join(package_id.split(".")[2:4])`. -/
def msvc_version_key (package_id : String) : String :=
  joinDot (((pySplit package_id '.').drop 2).take 2)

/-- One iteration of the `for package_id, package_list in packages.items()`
loop (lines 260-277), acting on the pair
(`msvc_versions`, `sdk_versions`) of version dicts.  The `elif` branch is
only reached when the MSVC `if` condition is false.  `version[0].isnumeric()`
tests only the first character of the joined key;
`version.isnumeric()` in the SDK branch requires a nonempty all-numeric
string. -/
def parse_step (ms : List (String × String) × List (String × String))
    (package_id : String) : List (String × String) × List (String × String) :=
  if pyStartsWith package_id "microsoft.vc." &&
      pyEndsWith package_id ".tools.hostx64.targetx64.base" then
    let version := msvc_version_key package_id
    if (pyFront version).isDigit then (dictInsert ms.1 version package_id, ms.2) else ms
  else if pyStartsWith package_id "microsoft.visualstudio.component.windows10sdk." ||
      pyStartsWith package_id "microsoft.visualstudio.component.windows11sdk." then
    let version := (pySplit package_id '.').getLastD ""
    if !version.data.isEmpty && version.data.all Char.isDigit then
      (ms.1, dictInsert ms.2 version package_id)
    else ms
  else ms

/-- The two version dicts built by the loop of
`parse_available_versions`, given the index keys in insertion order. -/
def parse_version_maps (ids : List String) : List (String × String) × List (String × String) :=
  ids.foldl parse_step ([], [])

/-- `parse_available_versions(vs_manifest)`: build the package index, then
scan its keys into the `msvc_versions` and `sdk_versions` dicts. -/
def parse_available_versions (manifest_packages : List Package) :
    Index × List (String × String) × List (String × String) :=
  let packages := build_packages manifest_packages
  let ms := parse_version_maps (packages.map (fun kv => kv.1))
  (packages, ms.1, ms.2)

/-! ## VSInstaller.select_versions (src/portable_msvc.py lines 281-302) -/

/-- The keys of a version dict. -/
def keysOf (d : List (String × String)) : List String :=
  d.map (fun kv => kv.1)

/-- Python `dict[k]` on a version dict. -/
def dictGet (d : List (String × String)) (k : String) : Option String :=
  (d.find? (fun kv => kv.1 == k)).map (fun kv => kv.2)

/-- `self.args.msvc_version or max(sorted(msvc_versions.keys()))`
(and the same for the SDK): the requested version if truthy, otherwise
the maximum of the sorted key list (`none` models the `ValueError` of
`max` on an empty sequence). -/
def selected_version (req : Option String) (versions : List (String × String)) : Option String :=
  pyOrStr req (pyMax (pySorted (keysOf versions)))

/-- `select_versions(msvc_versions, sdk_versions)` (lines 281-302), with
`--show-versions` absent (that flag exits before selecting).  `none`
models the `sys.exit("Unknown ... version")` paths and the empty-dict
`ValueError`.  Returns
`(full_msvc_version, sdk_ver, msvc_package_id, sdk_package_id)`. -/
def select_versions (msvc_versions sdk_versions : List (String × String))
    (req_msvc req_sdk : Option String) : Option (String × String × String × String) := do
  let msvc_ver ← selected_version req_msvc msvc_versions
  if !(keysOf msvc_versions).contains msvc_ver then none
  else do
    let sdk_ver ← selected_version req_sdk sdk_versions
    if !(keysOf sdk_versions).contains sdk_ver then none
    else do
      let msvc_package_id ← dictGet msvc_versions msvc_ver
      let sdk_package_id ← dictGet sdk_versions sdk_ver
      let full_msvc_version := joinDot (((pySplit msvc_package_id '.').drop 2).take 4)
      pure (full_msvc_version, sdk_ver, msvc_package_id, sdk_package_id)

/-! ## VSInstaller.download_msvc (src/portable_msvc.py lines 327-396) -/

/-- `self._find_first_item(items, condition)` (lines 198-200):
`next((item for item in items if condition(item)), None)`. -/
def find_first_item (l : List α) (cond : α → Bool) : Option α :=
  l.find? cond

/-- The conventionally-named redistributable identifier built at lines
358-361: `.onecore.desktop` is inserted exactly for target `"arm"`. -/
def conventional_redist_id (msvc_version target : String) : String :=
  let redist_suffix := if target = "arm" then ".onecore.desktop" else ""
  "microsoft.vc." ++ msvc_version ++ ".crt.redist." ++ target ++ redist_suffix ++ ".base"

/-- Lines 357-368: the redistributable package identifier for one target.
If the conventional identifier is absent from the index, fall back to the
first `.base`-suffixed dependency of the
`microsoft.visualcpp.crt.redist.{target}{suffix}` package; `none` models
the crashes of that fallback (`KeyError` when the fallback identifier is
absent, `TypeError`/`AttributeError` when its record list is empty or no
dependency ends in `.base`). -/
def redist_package (msvc_version target : String) (packages : Index) : Option String :=
  let redist_suffix := if target = "arm" then ".onecore.desktop" else ""
  let redist_pkg := conventional_redist_id msvc_version target
  if idxContains packages redist_pkg then some redist_pkg
  else do
    let redist_name := "microsoft.visualcpp.crt.redist." ++ target ++ redist_suffix
    let lst ← idxLookup packages redist_name
    let redist ← find_first_item lst (fun _ => true)
    let dep ← find_first_item redist.dependencies (fun d => pyEndsWith d ".base")
    pure (pyLower dep)

/-- Lines 341-370: the per-target package identifiers, in append order:
the six unconditional ones, the ASAN package for `x86`/`x64` only, then
the redistributable identifier. -/
def target_msvc_packages (msvc_version host target : String) (packages : Index) :
    Option (List String) := do
  let common := [
    "microsoft.vc." ++ msvc_version ++ ".tools.host" ++ host ++ ".target" ++ target ++ ".base",
    "microsoft.vc." ++ msvc_version ++ ".tools.host" ++ host ++ ".target" ++ target ++ ".res.base",
    "microsoft.vc." ++ msvc_version ++ ".crt." ++ target ++ ".desktop.base",
    "microsoft.vc." ++ msvc_version ++ ".crt." ++ target ++ ".store.base",
    "microsoft.vc." ++ msvc_version ++ ".premium.tools.host" ++ host ++ ".target" ++ target ++ ".base",
    "microsoft.vc." ++ msvc_version ++ ".pgo." ++ target ++ ".base"]
  let asan := if target = "x86" || target = "x64" then
    ["microsoft.vc." ++ msvc_version ++ ".asan." ++ target ++ ".base"] else []
  let redist_pkg ← redist_package msvc_version target packages
  pure (common ++ asan ++ [redist_pkg])

/-- Lines 331-370: the full list of package identifiers `download_msvc`
requests, before sorting: the five base packages followed by the
per-target blocks. -/
def expand_msvc_packages (msvc_version host : String) (targets : List String)
    (packages : Index) : Option (List String) := do
  let base := [
    "microsoft.visualcpp.dia.sdk",
    "microsoft.vc." ++ msvc_version ++ ".crt.headers.base",
    "microsoft.vc." ++ msvc_version ++ ".crt.source.base",
    "microsoft.vc." ++ msvc_version ++ ".asan.headers.base",
    "microsoft.vc." ++ msvc_version ++ ".pgo.headers.base"]
  let perTarget ← targets.mapM (fun t => target_msvc_packages msvc_version host t packages)
  pure (base ++ perTarget.flatten)

/-- `package.get("language") in (None, "en-US")` (line 379). -/
def lang_ok (p : Package) : Bool :=
  p.language == none || p.language == some "en-US"

/-- The download loop of lines 373-396 over an already-sorted name list.
A name absent from the index is printed as `!!! MISSING !!!` and skipped
(collected in the returned list); for a present name the first
`en-US`-or-languageless record's payloads are fetched and extracted,
modelled by the abstract per-payload action `dl` (`none` = that package's
processing crashed or exited).  The loop result is the list of missing
names, in iteration order; `none` models an abort. -/
def msvc_download_loop (dl : Payload → Option (List Nat)) (packages : Index) :
    List String → Option (List String)
  | [] => some []
  | package_name :: rest =>
    match idxLookup packages package_name with
    | none => (msvc_download_loop dl packages rest).map (fun m => package_name :: m)
    | some recs =>
      match find_first_item recs lang_ok with
      | none => none
      | some package =>
        match package.payloads.mapM dl with
        | none => none
        | some _ => msvc_download_loop dl packages rest

/-- `download_msvc(packages, msvc_version)` (lines 327-396): expand the
identifier list, sort it, and run the download loop.  Returns the missing
names reported, `none` on any fatal path. -/
def download_msvc (dl : Payload → Option (List Nat)) (packages : Index)
    (msvc_version host : String) (targets : List String) : Option (List String) := do
  let names ← expand_msvc_packages msvc_version host targets packages
  msvc_download_loop dl packages (pySorted names)

/-! ## VSInstaller.download_sdk, CAB loop (src/portable_msvc.py lines 448-456) -/

/-- The `for cab_name in cab_files` loop: each recovered name is looked
up in the owning package's payload list by exact
`"Installers\{name}"` match and downloaded.  Unlike the MSI loop just
above it (lines 434-446, which has an `if payload is None: continue`
guard), this loop uses `payload["url"]` unguarded, so an unresolvable
name crashes with a `TypeError` (subscripting `None`) — modelled by
`none`.  On success, returns the `(url, sha256, filename)` triples
passed to `download_with_progress`, in order. -/
def download_cabs (payloads : List Payload) (cab_files : List String) :
    Option (List (String × String × String)) :=
  cab_files.mapM (fun cab_name =>
    (find_first_item payloads (fun p => p.fileName == "Installers\\" ++ cab_name)).map
      (fun p => (p.url, p.sha256, cab_name)))

/-! ## Helper lemmas: the Python string order -/

theorem chLt_irrefl : ∀ a : List Char, chLt a a = false
  | [] => rfl
  | c :: rest => by
    simp only [chLt, Nat.lt_irrefl, if_false]
    exact chLt_irrefl rest

theorem chLt_trans : ∀ a b c : List Char,
    chLt a b = true → chLt b c = true → chLt a c = true
  | [], [], _, h, _ => by simp [chLt] at h
  | [], _ :: _, [], _, h => by simp [chLt] at h
  | [], _ :: _, _ :: _, _, _ => rfl
  | _ :: _, [], _, h, _ => by simp [chLt] at h
  | _ :: _, _ :: _, [], _, h => by simp [chLt] at h
  | a :: as, b :: bs, c :: cs, hab, hbc => by
    simp only [chLt] at hab hbc ⊢
    split at hab
    · split at hbc
      · have : a.toNat < c.toNat := by omega
        simp [this]
      · split at hbc
        · exact absurd hbc (by simp)
        · have : a.toNat < c.toNat := by omega
          simp [this]
    · split at hab
      · exact absurd hab (by simp)
      · split at hbc
        · have : a.toNat < c.toNat := by omega
          simp [this]
        · split at hbc
          · exact absurd hbc (by simp)
          · have h1 : ¬ a.toNat < c.toNat := by omega
            have h2 : ¬ c.toNat < a.toNat := by omega
            simp only [h1, h2, if_false]
            exact chLt_trans as bs cs hab hbc

theorem pyStrLe_refl (a : String) : pyStrLe a a = true := by
  simp [pyStrLe, pyStrLt, chLt_irrefl]

theorem pyStrLe_of_le_of_not_le {k m s : String}
    (h1 : pyStrLe k m = true) (h2 : pyStrLe s m = false) : pyStrLe k s = true := by
  simp only [pyStrLe, pyStrLt, Bool.not_eq_true', Bool.not_eq_false'] at h1 h2 ⊢
  by_contra hks
  rw [Bool.not_eq_false] at hks
  rw [chLt_trans _ _ _ h2 hks] at h1
  cases h1

/-- `pyMax` returns an element that is a member of the list and an upper
bound of it in the Python string order. -/
theorem pyMax_spec (l : List String) : ∀ (s : String), pyMax l = some s →
    s ∈ l ∧ ∀ k ∈ l, pyStrLe k s = true := by
  induction l with
  | nil => intro s h; cases h
  | cons s0 rest ih =>
    intro s h
    simp only [pyMax] at h
    cases hrest : pyMax rest with
    | none =>
      rw [hrest] at h
      cases h
      have hre : rest = [] := by
        cases rest with
        | nil => rfl
        | cons t ts =>
          simp only [pyMax] at hrest
          cases htt : pyMax ts with
          | none => rw [htt] at hrest; cases hrest
          | some m => rw [htt] at hrest; cases hrest
      subst hre
      refine ⟨List.mem_singleton_self _, ?_⟩
      intro k hk
      rw [List.mem_singleton] at hk
      subst hk
      exact pyStrLe_refl _
    | some m =>
      rw [hrest] at h
      cases h
      obtain ⟨hmem, hub⟩ := ih m hrest
      constructor
      · by_cases hcmp : pyStrLe s0 m = true
        · rw [if_pos hcmp]
          exact List.mem_cons_of_mem _ hmem
        · rw [if_neg hcmp]
          exact List.mem_cons_self _ _
      · intro k hk
        by_cases hcmp : pyStrLe s0 m = true
        · rw [if_pos hcmp]
          rcases List.mem_cons.mp hk with rfl | hk2
          · exact hcmp
          · exact hub _ hk2
        · rw [if_neg hcmp]
          have hcmpf : pyStrLe s0 m = false := by
            simpa using hcmp
          rcases List.mem_cons.mp hk with rfl | hk2
          · exact pyStrLe_refl _
          · exact pyStrLe_of_le_of_not_le (hub _ hk2) hcmpf

theorem mem_insertSorted {a s : String} : ∀ {l : List String},
    a ∈ insertSorted s l ↔ a = s ∨ a ∈ l
  | [] => by simp [insertSorted]
  | t :: rest => by
    simp only [insertSorted]
    split
    · simp
    · rw [List.mem_cons, List.mem_cons, mem_insertSorted]
      tauto

theorem mem_pySorted {a : String} : ∀ {l : List String}, a ∈ pySorted l ↔ a ∈ l
  | [] => Iff.rfl
  | s :: rest => by
    simp only [pySorted, mem_insertSorted, List.mem_cons, mem_pySorted]

/-- C2: with no explicit request, version selection is a pure function of
the index (hence idempotent across two calls on an unchanged index), and
the version it selects is the maximum of the candidate set in the
Python string order — lexicographic by code point, not numeric. -/
theorem claim_c2 (msvc_versions sdk_versions : List (String × String)) (s : String)
    (h : selected_version none msvc_versions = some s) :
    select_versions msvc_versions sdk_versions none none =
      select_versions msvc_versions sdk_versions none none ∧
    s ∈ keysOf msvc_versions ∧ ∀ k ∈ keysOf msvc_versions, pyStrLe k s = true := by
  refine ⟨rfl, ?_⟩
  have hmax : pyMax (pySorted (keysOf msvc_versions)) = some s := h
  obtain ⟨hmem, hub⟩ := pyMax_spec _ _ hmax
  exact ⟨mem_pySorted.mp hmem, fun k hk => hub k (mem_pySorted.mpr hk)⟩

/-- Witness for C2 at the spec's own edge case: among the candidates
`{"14", "16", "2", "9"}` the selected version is the string-maximum
`"9"`. -/
theorem claim_c2_witness :
    selected_version none [("14", "p14"), ("16", "p16"), ("2", "p2"), ("9", "p9")] = some "9" ∧
    "9" ∈ keysOf [("14", "p14"), ("16", "p16"), ("2", "p2"), ("9", "p9")] ∧
    ∀ k ∈ keysOf [("14", "p14"), ("16", "p16"), ("2", "p2"), ("9", "p9")],
      pyStrLe k "9" = true :=
  ⟨by decide,
   (claim_c2 [("14", "p14"), ("16", "p16"), ("2", "p2"), ("9", "p9")] [] "9" (by decide)).2⟩

/-- C10: host detection total behaviour: the result is always one of
`"x64"`, `"x86"`, `"arm64"`; the lowercased machine string `"amd64"` maps
to `"x64"`, `"arm64"` to `"arm64"`, `"x86"` to `"x86"`, and every other
value (including `"x86_64"`) falls through to the default `"x64"`. -/
theorem claim_c10 (machineRaw : String) :
    (detect_host machineRaw = "x64" ∨ detect_host machineRaw = "x86" ∨
      detect_host machineRaw = "arm64") ∧
    (pyLower machineRaw = "amd64" → detect_host machineRaw = "x64") ∧
    (pyLower machineRaw = "arm64" → detect_host machineRaw = "arm64") ∧
    (pyLower machineRaw = "x86" → detect_host machineRaw = "x86") ∧
    (pyLower machineRaw ≠ "amd64" ∧ pyLower machineRaw ≠ "arm64" ∧
      pyLower machineRaw ≠ "x86" → detect_host machineRaw = "x64") := by
  unfold detect_host
  by_cases h1 : pyLower machineRaw = "amd64" <;>
    by_cases h2 : pyLower machineRaw = "arm64" <;>
    by_cases h3 : pyLower machineRaw = "x86" <;>
    simp [h1, h2, h3]

/-- Witness for C10: `"x86_64"` (not one of the three recognized values)
defaults to `"x64"`, and the raw value `"AMD64"` lowers to `"amd64"` and
maps to `"x64"`. -/
theorem claim_c10_witness :
    detect_host "x86_64" = "x64" ∧ detect_host "AMD64" = "x64" :=
  ⟨(claim_c10 "x86_64").2.2.2.2 (by decide), (claim_c10 "AMD64").2.1 (by decide)⟩

/-! ## Claims about the fetcher -/

/-- C3: given that `hexdigest()` output is lowercase (a property of the
hashlib library, stated as the hypothesis `hlow`), a cached file whose
digest equals the expected hash under case-insensitive comparison is
returned as-is with no network access, and a cached file whose digest
differs is re-downloaded: the call behaves exactly like a cache miss. -/
theorem claim_c3 (sha : List Nat → String) (url_data data : List Nat)
    (expected_hash : String) (tb : Nat)
    (hlow : pyLower (sha data) = sha data) :
    (pyLower (sha data) = pyLower expected_hash →
      download_with_progress sha url_data expected_hash (some data) tb =
        .ok data data tb false) ∧
    (pyLower (sha data) ≠ pyLower expected_hash →
      download_with_progress sha url_data expected_hash (some data) tb =
        downloadNet sha url_data expected_hash tb) := by
  constructor
  · intro heq
    rw [hlow] at heq
    simp [download_with_progress, heq]
  · intro hne
    rw [hlow] at hne
    simp [download_with_progress, hne]

/-- Witness for C3 with a concrete (toy) hash function: uppercase
`"AA"` matches the lowercase digest `"aa"` case-insensitively and the
cached bytes are returned; with expected hash `"BB"` the call falls
through to the network branch. -/
theorem claim_c3_witness :
    download_with_progress (fun _ => "aa") [2] "AA" (some [1]) 0 = .ok [1] [1] 0 false ∧
    download_with_progress (fun _ => "aa") [2] "BB" (some [1]) 0 =
      downloadNet (fun _ => "aa") [2] "BB" 0 :=
  ⟨(claim_c3 (fun _ => "aa") [2] [1] "AA" 0 (by decide)).1 (by decide),
   (claim_c3 (fun _ => "aa") [2] [1] "BB" 0 (by decide)).2 (by decide)⟩

/-- C4: when the digest of the downloaded bytes does not match, the
download ends in the fatal hash-mismatch exit (the model has no retry
path: the outcome is the exit itself), the cache file is left holding
exactly the mismatching bytes, and because those bytes fail the
cache-validity check, any later call with that cache state goes straight
back to the network. -/
theorem claim_c4 (sha : List Nat → String) (url_data : List Nat)
    (expected_hash : String) (tb : Nat)
    (hm : sha url_data ≠ pyLower expected_hash) :
    downloadNet sha url_data expected_hash tb = .exitHashMismatch url_data tb ∧
    (∀ url2 tb2, download_with_progress sha url2 expected_hash (some url_data) tb2 =
      downloadNet sha url2 expected_hash tb2) := by
  constructor
  · simp [downloadNet, Ne.symm hm]
  · intro url2 tb2
    simp [download_with_progress, hm]

/-- Witness for C4 with a concrete toy hash function. -/
theorem claim_c4_witness :
    downloadNet (fun _ => "aa") [3] "BB" 0 = .exitHashMismatch [3] 0 ∧
    download_with_progress (fun _ => "aa") [4] "BB" (some [3]) 7 =
      downloadNet (fun _ => "aa") [4] "BB" 7 :=
  ⟨(claim_c4 (fun _ => "aa") [3] "BB" 0 (by decide)).1,
   (claim_c4 (fun _ => "aa") [3] "BB" 0 (by decide)).2 [4] 7⟩

/-- C9 (frame): a cache hit returns without touching the cumulative byte
counter or the cache file and without the network; a network download
that passes verification adds exactly the payload's byte length to the
counter; a failed verification exits without touching the counter.  So
the end-of-run total counts only bytes actually transferred. -/
theorem claim_c9 (sha : List Nat → String) (url_data data : List Nat)
    (expected_hash : String) (tb : Nat) :
    (sha data = pyLower expected_hash →
      download_with_progress sha url_data expected_hash (some data) tb =
        .ok data data tb false) ∧
    (sha url_data = pyLower expected_hash →
      downloadNet sha url_data expected_hash tb =
        .ok url_data url_data (tb + url_data.length) true) ∧
    (sha url_data ≠ pyLower expected_hash →
      downloadNet sha url_data expected_hash tb = .exitHashMismatch url_data tb) := by
  refine ⟨fun heq => ?_, fun heq => ?_, fun hne => ?_⟩
  · simp [download_with_progress, heq]
  · simp [downloadNet, heq]
  · simp [downloadNet, Ne.symm hne]

/-- Witness for C9: a cache hit leaves the counter at 5; a verified
2-byte network download moves the counter from 5 to 7; a failed one
leaves it at 5. -/
theorem claim_c9_witness :
    download_with_progress (fun _ => "aa") [9, 9] "aa" (some [1]) 5 = .ok [1] [1] 5 false ∧
    downloadNet (fun _ => "aa") [9, 9] "aa" 5 = .ok [9, 9] [9, 9] 7 true ∧
    downloadNet (fun _ => "aa") [9, 9] "BB" 5 = .exitHashMismatch [9, 9] 5 :=
  ⟨(claim_c9 (fun _ => "aa") [9, 9] [1] "aa" 5).1 (by decide),
   (claim_c9 (fun _ => "aa") [9, 9] [1] "aa" 5).2.1 (by decide),
   (claim_c9 (fun _ => "aa") [9, 9] [1] "BB" 5).2.2 (by decide)⟩

/-! ## Claim about the SDK CAB loop -/

/-- C6 (code bug): a recovered sub-archive filename without an exact
`Installers\{name}` match in the owning package's payload list makes the
CAB loop crash (`payload["url"]` on `None`), instead of being skipped:
the loop has no `None` guard, unlike the MSI loop directly above it.
The first conjunct is the empty-payload-list crash, the second shows a
resolvable name downloads fine, the third shows the crash with a
nonempty payload list that simply lacks the name. -/
theorem claim_c6_crash :
    download_cabs [] ["a.cab"] = none ∧
    download_cabs [⟨"Installers\\a.cab", "u", "h"⟩] ["a.cab"] = some [("u", "h", "a.cab")] ∧
    download_cabs [⟨"Installers\\other.cab", "u", "h"⟩] ["a.cab"] = none := by
  decide

/-! ## Claims about resolver expansion and the download loop -/

theorem idxLookup_eq_none_of_not_contains {packages : Index} {k : String}
    (h : idxContains packages k = false) : idxLookup packages k = none := by
  simp only [idxContains, List.any_eq_false] at h
  unfold idxLookup
  rw [List.find?_eq_none.mpr h]
  rfl

theorem idxContains_of_lookup_some {packages : Index} {k : String} {v : List Package}
    (h : idxLookup packages k = some v) : idxContains packages k = true := by
  by_contra hc
  rw [Bool.not_eq_true] at hc
  rw [idxLookup_eq_none_of_not_contains hc] at h
  cases h

/-- C7 counterexample: on an index from which every computed identifier
is absent, the MSVC download does not report-and-skip; it aborts, because
the redistributable fallback `packages[redist_name]` lookup raises
`KeyError` when the fallback identifier is absent too. -/
theorem claim_c7_counterexample :
    expand_msvc_packages "14.40" "x64" ["x64"] [] = none ∧
    download_msvc (fun _ => some []) [] "14.40" "x64" ["x64"] = none := by
  decide

/-- C7 amended: identifiers in the final expanded download list that are
absent from the index are each reported in the missing list and skipped,
and absence alone never aborts the loop (a list of all-absent names
completes, reporting every one); the fatal case of the claim lives in
the redistributable indirection, before the loop (see the
counterexample). -/
theorem claim_c7_amended (dl : Payload → Option (List Nat)) (packages : Index) :
    (∀ names missing, msvc_download_loop dl packages names = some missing →
      ∀ n ∈ names, idxContains packages n = false → n ∈ missing) ∧
    (∀ names, (∀ n ∈ names, idxContains packages n = false) →
      msvc_download_loop dl packages names = some names) := by
  constructor
  · intro names
    induction names with
    | nil => intro missing _ n hn; cases hn
    | cons n0 rest ih =>
      intro missing hloop n hn habs
      rw [msvc_download_loop] at hloop
      cases hlk : idxLookup packages n0 with
      | none =>
        rw [hlk] at hloop
        cases hrest : msvc_download_loop dl packages rest with
        | none => rw [hrest] at hloop; cases hloop
        | some m =>
          rw [hrest] at hloop
          cases hloop
          rcases List.mem_cons.mp hn with rfl | hn2
          · exact List.mem_cons_self _ _
          · exact List.mem_cons_of_mem _ (ih m hrest n hn2 habs)
      | some recs =>
        simp only [hlk] at hloop
        cases hff : find_first_item recs lang_ok with
        | none =>
          simp only [hff] at hloop
          cases hloop
        | some package =>
          simp only [hff] at hloop
          cases hpl : package.payloads.mapM dl with
          | none =>
            simp only [hpl] at hloop
            cases hloop
          | some _ =>
            simp only [hpl] at hloop
            rcases List.mem_cons.mp hn with rfl | hn2
            · rw [idxLookup_eq_none_of_not_contains habs] at hlk
              cases hlk
            · exact ih missing hloop n hn2 habs
  · intro names habs
    induction names with
    | nil => rfl
    | cons n0 rest ih =>
      rw [msvc_download_loop,
        idxLookup_eq_none_of_not_contains (habs n0 (List.mem_cons_self _ _)),
        ih (fun n hn => habs n (List.mem_cons_of_mem _ hn))]
      rfl

/-- Witness for C7 amended: on the empty index a two-name list completes
and reports both names as missing. -/
theorem claim_c7_amended_witness :
    msvc_download_loop (fun _ => some []) ([] : Index) ["b.pkg", "a.pkg"] =
      some ["b.pkg", "a.pkg"] ∧
    "b.pkg" ∈ (["b.pkg", "a.pkg"] : List String) :=
  ⟨(claim_c7_amended (fun _ => some []) []).2 ["b.pkg", "a.pkg"] (fun _ _ => rfl),
   by decide⟩

/-- Left-to-right re-association of string append (used to compare the
source's piecewise identifier concatenations with whole-suffix
literals). -/
theorem strAppendAssoc : ∀ a b c : String, a ++ b ++ c = a ++ (b ++ c)
  | ⟨la⟩, ⟨lb⟩, ⟨lc⟩ => congrArg String.mk (List.append_assoc la lb lc)

/-- C8: the conventionally-built redistributable identifier carries the
`.crt.redist.arm.onecore.desktop.base` suffix for target `"arm"` and the
bare `.crt.redist.{target}.base` suffix for the three other targets, and
whenever that identifier is present in the index, `download_msvc`'s
redistributable resolution returns exactly it. -/
theorem claim_c8 (msvc_version : String) (packages : Index) :
    conventional_redist_id msvc_version "arm" =
      "microsoft.vc." ++ msvc_version ++ ".crt.redist.arm.onecore.desktop.base" ∧
    (∀ t, t = "x64" ∨ t = "x86" ∨ t = "arm64" →
      conventional_redist_id msvc_version t =
        "microsoft.vc." ++ msvc_version ++ (".crt.redist." ++ t ++ ".base")) ∧
    (∀ t, idxContains packages (conventional_redist_id msvc_version t) = true →
      redist_package msvc_version t packages =
        some (conventional_redist_id msvc_version t)) := by
  refine ⟨?_, ?_, ?_⟩
  · show "microsoft.vc." ++ msvc_version ++ ".crt.redist." ++ "arm" ++
      (if ("arm" : String) = "arm" then ".onecore.desktop" else "") ++ ".base" = _
    rw [if_pos rfl]
    simp only [strAppendAssoc]
    rw [show (".crt.redist." ++ ("arm" ++ (".onecore.desktop" ++ ".base")) : String) =
      ".crt.redist.arm.onecore.desktop.base" from by decide]
  · intro t ht
    rcases ht with rfl | rfl | rfl <;>
    · show "microsoft.vc." ++ msvc_version ++ ".crt.redist." ++ _ ++
        (if _ = ("arm" : String) then ".onecore.desktop" else "") ++ ".base" = _
      rw [if_neg (by decide)]
      simp only [strAppendAssoc]
      rw [show ("" ++ ".base" : String) = ".base" from by decide]
  · intro t hpresent
    rw [redist_package, hpresent]
    rfl

/-- Witness for C8 at a concrete version and a concrete index holding
the conventional x64 identifier. -/
theorem claim_c8_witness :
    conventional_redist_id "14.40" "arm" =
      "microsoft.vc.14.40.crt.redist.arm.onecore.desktop.base" ∧
    redist_package "14.40" "x64"
        [("microsoft.vc.14.40.crt.redist.x64.base", [])] =
      some "microsoft.vc.14.40.crt.redist.x64.base" :=
  ⟨(claim_c8 "14.40" []).1.trans (by decide),
   by
    have h := (claim_c8 "14.40"
      [("microsoft.vc.14.40.crt.redist.x64.base", [])]).2.2 "x64" (by decide)
    rw [h]
    decide⟩

/-! ## Claim C1: toolchain-version classification -/

theorem mem_dictInsert_elim {d : List (String × String)} {k v a b : String}
    (h : (a, b) ∈ dictInsert d k v) : (a, b) ∈ d ∨ (a = k ∧ b = v) := by
  unfold dictInsert at h
  split at h
  · rcases List.mem_map.mp h with ⟨kv, hkv, heq⟩
    by_cases hk : (kv.1 == k) = true
    · rw [if_pos hk] at heq
      cases heq
      exact Or.inr ⟨beq_iff_eq.mp hk, rfl⟩
    · rw [if_neg hk] at heq
      exact Or.inl (heq ▸ hkv)
  · rcases List.mem_append.mp h with h1 | h1
    · exact Or.inl h1
    · rw [List.mem_singleton] at h1
      cases h1
      exact Or.inr ⟨rfl, rfl⟩

theorem mem_dictInsert_self (d : List (String × String)) (k v : String) :
    (k, v) ∈ dictInsert d k v := by
  unfold dictInsert
  split
  · rename_i hany
    rcases List.any_eq_true.mp hany with ⟨kv, hkv, hk⟩
    have heq : (if kv.1 == k then (kv.1, v) else kv) = (k, v) := by
      rw [if_pos hk, beq_iff_eq.mp hk]
    exact heq ▸ List.mem_map_of_mem _ hkv
  · exact List.mem_append_right _ (List.mem_singleton_self _)

theorem mem_dictInsert_key_mono {d : List (String × String)} {a : String} (k v : String)
    (h : ∃ b, (a, b) ∈ d) : ∃ b, (a, b) ∈ dictInsert d k v := by
  obtain ⟨b, hb⟩ := h
  unfold dictInsert
  split
  · by_cases hk : ((a, b).1 == k) = true
    · refine ⟨v, ?_⟩
      have heq : (if (a, b).1 == k then ((a, b).1, v) else (a, b)) = (a, v) := by
        rw [if_pos hk]
      exact heq ▸ List.mem_map_of_mem _ hb
    · refine ⟨b, ?_⟩
      have heq : (if (a, b).1 == k then ((a, b).1, v) else (a, b)) = (a, b) := by
        rw [if_neg hk]
      exact heq ▸ List.mem_map_of_mem _ hb
  · exact ⟨b, List.mem_append_left _ hb⟩

/-- Every entry of the MSVC version dict produced by the parse loop comes
from a package identifier satisfying the code's branch conditions. -/
theorem parse_fold_sound (ids : List String) :
    ∀ (init : List (String × String) × List (String × String)) (v pid : String),
    (v, pid) ∈ (ids.foldl parse_step init).1 →
    (v, pid) ∈ init.1 ∨
      (pid ∈ ids ∧ pyStartsWith pid "microsoft.vc." = true ∧
        pyEndsWith pid ".tools.hostx64.targetx64.base" = true ∧
        v = msvc_version_key pid ∧ (pyFront (msvc_version_key pid)).isDigit = true) := by
  induction ids with
  | nil => intro init v pid h; exact Or.inl h
  | cons pid0 rest ih =>
    intro init v pid h
    rw [List.foldl_cons] at h
    rcases ih (parse_step init pid0) v pid h with hin | hrest
    · simp only [parse_step] at hin
      split at hin
      · rename_i hcond
        split at hin
        · rename_i hdigit
          rcases mem_dictInsert_elim hin with h1 | h1
          · exact Or.inl h1
          · obtain ⟨rfl, rfl⟩ := h1
            rw [Bool.and_eq_true] at hcond
            exact Or.inr ⟨List.mem_cons_self _ _, hcond.1, hcond.2, rfl, hdigit⟩
        · exact Or.inl hin
      · split at hin
        · split at hin
          · exact Or.inl hin
          · exact Or.inl hin
        · exact Or.inl hin
    · exact Or.inr ⟨List.mem_cons_of_mem _ hrest.1, hrest.2⟩

/-- Keys present in the MSVC version dict are preserved by the remaining
iterations of the parse loop. -/
theorem parse_fold_key_mono (ids : List String) :
    ∀ (init : List (String × String) × List (String × String)) (a : String),
    (∃ b, (a, b) ∈ init.1) → ∃ b, (a, b) ∈ (ids.foldl parse_step init).1 := by
  induction ids with
  | nil => intro init a h; exact h
  | cons pid0 rest ih =>
    intro init a h
    rw [List.foldl_cons]
    apply ih
    simp only [parse_step]
    split
    · split
      · exact mem_dictInsert_key_mono _ _ h
      · exact h
    · split
      · split
        · exact h
        · exact h
      · exact h

/-- Every identifier satisfying the code's branch conditions contributes
its version key to the MSVC version dict. -/
theorem parse_fold_contrib (ids : List String) :
    ∀ (init : List (String × String) × List (String × String)) (pid : String),
    pid ∈ ids →
    pyStartsWith pid "microsoft.vc." = true →
    pyEndsWith pid ".tools.hostx64.targetx64.base" = true →
    (pyFront (msvc_version_key pid)).isDigit = true →
    ∃ b, (msvc_version_key pid, b) ∈ (ids.foldl parse_step init).1 := by
  induction ids with
  | nil => intro init pid h; cases h
  | cons pid0 rest ih =>
    intro init pid hmem h1 h2 h3
    rw [List.foldl_cons]
    rcases List.mem_cons.mp hmem with rfl | hmem2
    · apply parse_fold_key_mono
      simp only [parse_step, h1, h2, h3, Bool.and_self, if_true]
      exact ⟨pid, mem_dictInsert_self _ _ _⟩
    · exact ih (parse_step init pid0) pid hmem2 h1 h2 h3

/-- C1 counterexample, refuting both directions of the claimed "iff":
(a) `microsoft.vc.14.29.tools.hostarm64.targetarm64.base` matches the
spec's pattern `{tool-ns}.{major}.{minor}.tools.host{X}.target{X}.base`
with architecture `X = arm64` and purely-numeric `major`/`minor`
segments, yet contributes no toolchain-version key (the code fixes
`hostx64.targetx64`);
(b) `microsoft.vc.14a.2b.tools.hostx64.targetx64.base` has non-numeric
`major`/`minor` segments, yet its key `"14a.2b"` IS retained (the code
only tests the first character of the joined key). -/
theorem claim_c1_counterexample :
    ("microsoft.vc.14.29.tools.hostarm64.targetarm64.base" =
        "microsoft.vc." ++ "14" ++ "." ++ "29" ++ ".tools.host" ++ "arm64" ++
          ".target" ++ "arm64" ++ ".base" ∧
      "14".data.all Char.isDigit = true ∧ "29".data.all Char.isDigit = true ∧
      (parse_version_maps ["microsoft.vc.14.29.tools.hostarm64.targetarm64.base"]).1 = []) ∧
    ((parse_version_maps ["microsoft.vc.14a.2b.tools.hostx64.targetx64.base"]).1 =
        [("14a.2b", "microsoft.vc.14a.2b.tools.hostx64.targetx64.base")] ∧
      "14a".data.all Char.isDigit = false ∧
      msvc_version_key "microsoft.vc.14a.2b.tools.hostx64.targetx64.base" = "14a.2b") := by
  decide

/-- C1 amended: an identifier contributes a toolchain-version key iff it
starts with `microsoft.vc.` and ends with `.tools.hostx64.targetx64.base`
(host and target architectures fixed to x64) and the first character of
the key — the join of its 3rd and 4th dot-segments — is a digit; there is
no requirement that both segments be purely numeric. -/
theorem claim_c1_amended (ids : List String) :
    (∀ v pid, (v, pid) ∈ (parse_version_maps ids).1 →
      pid ∈ ids ∧ pyStartsWith pid "microsoft.vc." = true ∧
      pyEndsWith pid ".tools.hostx64.targetx64.base" = true ∧
      v = msvc_version_key pid ∧ (pyFront (msvc_version_key pid)).isDigit = true) ∧
    (∀ pid ∈ ids, pyStartsWith pid "microsoft.vc." = true →
      pyEndsWith pid ".tools.hostx64.targetx64.base" = true →
      (pyFront (msvc_version_key pid)).isDigit = true →
      ∃ pid2, (msvc_version_key pid, pid2) ∈ (parse_version_maps ids).1) := by
  constructor
  · intro v pid h
    rcases parse_fold_sound ids ([], []) v pid h with h1 | h1
    · cases h1
    · exact h1
  · intro pid hmem h1 h2 h3
    exact parse_fold_contrib ids ([], []) pid hmem h1 h2 h3

/-- Witness for C1 amended: a conforming x64/x64 identifier contributes
its `"14.39"` key. -/
theorem claim_c1_amended_witness :
    ∃ pid2, ("14.39", pid2) ∈
      (parse_version_maps ["microsoft.vc.14.39.tools.hostx64.targetx64.base"]).1 := by
  have h := (claim_c1_amended ["microsoft.vc.14.39.tools.hostx64.targetx64.base"]).2
    "microsoft.vc.14.39.tools.hostx64.targetx64.base"
    (by decide) (by decide) (by decide) (by decide)
  rw [show msvc_version_key "microsoft.vc.14.39.tools.hostx64.targetx64.base" =
    "14.39" from by decide] at h
  exact h

/-! ## Claim C5: CAB-reference extraction -/

theorem bytesFind_sound {data pat : List Nat} {start i : Nat}
    (h : bytesFind data pat start = some i) :
    start ≤ i ∧ matchesAt data pat i = true := by
  unfold bytesFind at h
  cases hl : (List.range data.length).filter
      (fun j => start ≤ j && matchesAt data pat j) with
  | nil => rw [hl] at h; cases h
  | cons x t =>
    rw [hl] at h
    have hix : i = x := by
      simp only [List.head?_cons, Option.some.injEq] at h
      exact h.symm
    subst hix
    have hx : i ∈ (List.range data.length).filter
        (fun j => start ≤ j && matchesAt data pat j) := hl ▸ List.mem_cons_self i t
    have hp := List.of_mem_filter hx
    rw [Bool.and_eq_true] at hp
    exact ⟨of_decide_eq_true hp.1, hp.2⟩

/-- The window list returned by the extraction loop is exactly the
fixed-width Python slice at each visited offset. -/
theorem extractLoop_eq_map (data : List Nat) :
    ∀ fuel index, extractLoop data fuel index =
      (scanOffsetsLoop data fuel index).map
        (fun i => pySlice data ((i : Int) - 32) ((i : Int) + 4)) := by
  intro fuel
  induction fuel with
  | zero => intro index; rfl
  | succ n ih =>
    intro index
    cases h : bytesFind data cabMarker (index + 4) with
    | none => simp [extractLoop, scanOffsetsLoop, h]
    | some i => simp [extractLoop, scanOffsetsLoop, h, ih i]

/-- Every offset the scan visits is at least 4 beyond the previous loop
index and is a genuine occurrence of the marker. -/
theorem scanOffsetsLoop_sound (data : List Nat) :
    ∀ fuel index i, i ∈ scanOffsetsLoop data fuel index →
      index + 4 ≤ i ∧ matchesAt data cabMarker i = true := by
  intro fuel
  induction fuel with
  | zero => intro index i h; cases h
  | succ n ih =>
    intro index i h
    rw [scanOffsetsLoop] at h
    cases hf : bytesFind data cabMarker (index + 4) with
    | none =>
      simp only [hf] at h
      cases h
    | some j =>
      simp only [hf] at h
      obtain ⟨hle, hmatch⟩ := bytesFind_sound hf
      rcases List.mem_cons.mp h with rfl | h2
      · exact ⟨hle, hmatch⟩
      · obtain ⟨hle2, hm2⟩ := ih j i h2
        exact ⟨by omega, hm2⟩

/-- C5 counterexample: the buffer `b".cab"` contains one literal
occurrence of the marker (at offset 0), yet `extract_cab_files` returns
no filename for it: the loop's first search starts at offset 4, so
occurrences beginning before offset 4 are missed. -/
theorem claim_c5_counterexample :
    matchesAt [46, 99, 97, 98] cabMarker 0 = true ∧
    extract_cab_files [46, 99, 97, 98] = some [] := by
  decide

/-- C5 amended: `extract_cab_files` returns one filename per marker
occurrence the scan finds, where the scan's first search begins at byte
offset 4 (an occurrence starting before offset 4 is missed) and each
further search resumes immediately after the previous match; every found
offset `i` is a genuine occurrence with `4 ≤ i`, and the filename for it
is the Python slice `bytes[i - 32 : i + 4]` (with CPython's
negative-index wrapping when `i < 32`). -/
theorem claim_c5_amended (data : List Nat) :
    extract_cab_files_raw data =
      (scanOffsets data).map (fun i => pySlice data ((i : Int) - 32) ((i : Int) + 4)) ∧
    ∀ i ∈ scanOffsets data, 4 ≤ i ∧ matchesAt data cabMarker i = true := by
  constructor
  · exact extractLoop_eq_map data data.length 0
  · intro i hi
    obtain ⟨h1, h2⟩ := scanOffsetsLoop_sound data data.length 0 i hi
    exact ⟨by omega, h2⟩

/-- Witness for C5 amended at the spec's own test vector: 32 `X` bytes
followed by `.cab` yield the single 36-character name. -/
theorem claim_c5_amended_witness :
    (32 ∈ scanOffsets (List.replicate 32 88 ++ cabMarker) ∧
      4 ≤ 32 ∧ matchesAt (List.replicate 32 88 ++ cabMarker) cabMarker 32 = true) ∧
    extract_cab_files (List.replicate 32 88 ++ cabMarker) =
      some ["XXXXXXXXXXXXXXXXXXXXXXXXXXXXXXXX.cab"] :=
  ⟨⟨by decide, (claim_c5_amended (List.replicate 32 88 ++ cabMarker)).2 32 (by decide)⟩,
   by decide⟩

end PortableMsvc
